import Mathlib

/-!
# Verification of the ExcelComparison reconciliation engine

Shallow embedding of the core comparison engine of the repository
(`src/comparator.py` and `src/config_loader.py`) and proofs about it.

Modelling conventions:
* Cell values are `Value`: `null` stands for Python `None` / `NaN`
  (both recognised by `pd.isna`), `num q` for an `int`/`float` modelled as an
  exact rational, `str s` for a Python string.
* Python `float` parsing (`float(s)`) is modelled by `parseFloat`, which accepts
  the standard decimal grammar `[sign] digits [. digits] [(e|E) [sign] digits]`
  after stripping surrounding whitespace, producing an exact rational.  The
  exotic inputs `inf`/`nan`/underscore separators are treated as parse failures.
* Python `int(x)` (truncation toward zero) is `pyInt`; `str(int)` is `intToStr`,
  implemented with an explicit fuel-based decimal printer so that it is both
  executable and provable by structural induction.
* `round(x, 6)` is `pyRound x 6` with banker's rounding (round-half-even) on
  exact rationals.
* `str.strip()` is `pyStrip` (ASCII whitespace), `str.upper()` is
  `String.toUpper` (ASCII), `str.rstrip("%")` is `rstripPercent`.
-/

/-- A scalar cell value as seen by the comparator: `null` covers Python `None`
and float `NaN` (both satisfy `pd.isna`); `num` is an `int`/`float` modelled as
an exact rational; `str` is a string. -/
inductive Value where
  | null : Value
  | num (q : ℚ) : Value
  | str (s : String) : Value
deriving DecidableEq

/-- The `diff` component returned by `_compare_values`: either a number or a
textual sentinel / description. -/
inductive Diff where
  | num (q : ℚ) : Diff
  | str (s : String) : Diff
deriving DecidableEq

/-- The `dtype` of a compare column.  In the source it is the string
`"numeric"` or anything else (treated as text, the default). -/
inductive Dtype where
  | numeric : Dtype
  | text : Dtype
deriving DecidableEq

/-- The `cfg["output"]["labels"]` mapping, with the keys the comparator reads.
The Python key `match` is a Lean keyword, hence the field name `matchLbl`. -/
structure Labels where
  matchLbl : String
  mismatch : String
  warning : String
  overall_match : String
  overall_mismatch : String
  overall_qes_only : String
  overall_niq_only : String
  na_qes_only : String
  na_niq_only : String
  null_vs_value : String
  higher : String
  lower : String
  same : String
deriving DecidableEq

/-- The hard-coded label defaults installed by `load_config`. -/
def defaultLabels : Labels :=
  { matchLbl := "MATCH", mismatch := "MISMATCH", warning := "WARNING",
    overall_match := "MATCH", overall_mismatch := "MISMATCH",
    overall_qes_only := "QES ONLY", overall_niq_only := "NIQ ONLY",
    na_qes_only := "N/A - QES Only", na_niq_only := "N/A - NIQ Only",
    null_vs_value := "NULL vs value",
    higher := "HIGHER", lower := "LOWER", same := "SAME" }

/-- ASCII whitespace recognised by Python `str.strip()`. -/
def isWS (c : Char) : Bool :=
  decide (c.toNat = 32 ∨ c.toNat = 9 ∨ c.toNat = 10 ∨ c.toNat = 13 ∨
    c.toNat = 11 ∨ c.toNat = 12)

/-- ASCII decimal digit `0`-`9`. -/
def isDigitC (c : Char) : Bool := decide (48 ≤ c.toNat ∧ c.toNat ≤ 57)

/-- The exponent marker `e` / `E` of the float grammar. -/
def isExpC (c : Char) : Bool := decide (c.toNat = 101 ∨ c.toNat = 69)

/-- The decimal point of the float grammar. -/
def isDotC (c : Char) : Bool := decide (c.toNat = 46)

/-- Strip ASCII whitespace from both ends of a character list
(Python `str.strip()`). -/
def stripChars (l : List Char) : List Char :=
  List.rdropWhile isWS (List.dropWhile isWS l)

/-- Python `str.strip()` on a `String`. -/
def pyStrip (s : String) : String := ⟨stripChars s.data⟩

/-- Python `str.rstrip("%")`: drop every trailing `%`. -/
def rstripPercent (l : List Char) : List Char :=
  List.rdropWhile (fun c => decide (c.toNat = 37)) l

/-- The digit character for `d < 10` (`0` ↦ `'0'`, …, `9` ↦ `'9'`). -/
def digitChar (d : ℕ) : Char := Char.ofNat (48 + d % 10)

/-- Numeric value of a big-endian digit-character list
(`['1','2','3']` ↦ `123`). -/
def digitsVal (l : List Char) : ℕ :=
  l.foldl (fun acc c => 10 * acc + (c.toNat - 48)) 0

/-- Fuel-based big-endian decimal printer for naturals; adequate whenever
`n < fuel` (the recursion divides by ten each step). -/
def digAux : ℕ → ℕ → List Char
  | 0, _ => []
  | fuel + 1, n =>
    if n < 10 then [digitChar n]
    else digAux fuel (n / 10) ++ [digitChar (n % 10)]

/-- Decimal digits of a natural number (models Python `str` on a
non-negative `int`). -/
def natToChars (n : ℕ) : List Char := digAux (n + 1) n

/-- Decimal representation of an integer (models Python `str(int)`). -/
def intToChars (i : ℤ) : List Char :=
  if i < 0 then Char.ofNat 45 :: natToChars i.natAbs else natToChars i.natAbs

/-- Python `str(int)` as a `String`. -/
def intToStr (i : ℤ) : String := ⟨intToChars i⟩

/-- Split a character list at the first character satisfying `p`: returns the
part before it and, if found, the part after it (the separator is dropped). -/
def splitAt1 (p : Char → Bool) (l : List Char) : List Char × Option (List Char) :=
  match l.dropWhile (fun c => !p c) with
  | [] => (l.takeWhile (fun c => !p c), none)
  | _ :: rest => (l.takeWhile (fun c => !p c), some rest)

/-- Consume an optional leading sign; returns (isNegative, rest). -/
def parseSign : List Char → Bool × List Char
  | [] => (false, [])
  | c :: rest =>
    if c.toNat = 45 then (true, rest)
    else if c.toNat = 43 then (false, rest)
    else (false, c :: rest)

/-- A non-empty run of decimal digits, as a natural number. -/
def parseUDigits (l : List Char) : Option ℕ :=
  if l.isEmpty then none
  else if l.all isDigitC then some (digitsVal l) else none

/-- `[sign] digits [. digits]` with at least one digit overall, as an exact
rational (the mantissa part of the Python float grammar). -/
def parseDec (l : List Char) : Option ℚ :=
  let sr := parseSign l
  let ipfp := splitAt1 isDotC sr.2
  match ipfp.2 with
  | none =>
    (parseUDigits ipfp.1).map fun m : ℕ => if sr.1 then -(m : ℚ) else (m : ℚ)
  | some fp =>
    if ipfp.1.isEmpty && fp.isEmpty then none
    else if ipfp.1.all isDigitC && fp.all isDigitC then
      let v : ℚ := (digitsVal ipfp.1 : ℚ) + (digitsVal fp : ℚ) / (10 : ℚ) ^ fp.length
      some (if sr.1 then -v else v)
    else none

/-- `[sign] digits`, as an integer (the exponent part of the float grammar). -/
def parseSignedInt (l : List Char) : Option ℤ :=
  let sr := parseSign l
  (parseUDigits sr.2).map fun m : ℕ => if sr.1 then -(m : ℤ) else (m : ℤ)

/-- Python `float(s)` on a character list: strip whitespace, split at the
first `e`/`E`, parse mantissa and optional exponent. -/
def parseFloatChars (l : List Char) : Option ℚ :=
  let ls := stripChars l
  let me := splitAt1 isExpC ls
  match me.2 with
  | none => parseDec me.1
  | some ex =>
    match parseDec me.1, parseSignedInt ex with
    | some m, some e => some (m * (10 : ℚ) ^ e)
    | _, _ => none

/-- Python `float(s)` on a `String`, as an exact rational (`none` = raises). -/
def parseFloat (s : String) : Option ℚ := parseFloatChars s.data

/-- Floor of a rational, computed from its reduced fraction (integer division
floors because the denominator is positive). -/
def ratFloor (q : ℚ) : ℤ := q.num / (q.den : ℤ)

/-- Python `int(x)` on a float value: truncation toward zero. -/
def pyInt (q : ℚ) : ℤ := if q < 0 then -ratFloor (-q) else ratFloor q

/-- Round a rational to the nearest integer, ties to even
(Python's rounding mode). -/
def roundHalfEven (y : ℚ) : ℤ :=
  let f := ratFloor y
  let r := y - (f : ℚ)
  if r < 1 / 2 then f
  else if 1 / 2 < r then f + 1
  else if f % 2 = 0 then f else f + 1

/-- Python `round(x, n)` on exact rationals. -/
def pyRound (x : ℚ) (n : ℕ) : ℚ :=
  (roundHalfEven (x * (10 : ℚ) ^ n) : ℚ) / (10 : ℚ) ^ n

/-- Python `str(value)`.  For non-integer rationals the printed form is an
abstraction (`num/den`); it is never produced by the comparator's float
values in the claims below, and only its use as an opaque injective tag
matters (integer-valued floats print exactly, e.g. `11.0`). -/
def ratToChars (q : ℚ) : List Char :=
  if q.den = 1 then intToChars q.num ++ [Char.ofNat 46, Char.ofNat 48]
  else intToChars q.num ++ [Char.ofNat 47] ++ natToChars q.den

/-- Python `str(value)` for a cell value. -/
def pyStr : Value → String
  | Value.null => "None"
  | Value.num q => ⟨ratToChars q⟩
  | Value.str s => s

/-- `float(value)` on a cell value; `none` models a raised
`ValueError`/`TypeError`. -/
def toFloat? : Value → Option ℚ
  | Value.null => none
  | Value.num q => some q
  | Value.str s => parseFloat s

/-- `_normalize_key_part` (comparator.py:154): strip whitespace, then
`str(int(float(s)))`, falling back to the stripped string when parsing
fails. -/
def normalizeKeyPart (v : Value) : String :=
  let s := pyStrip (pyStr v)
  match parseFloat s with
  | some q => intToStr (pyInt q)
  | none => s

/-- `_normalize_value` (comparator.py:164): for the numeric dtype, strip
whitespace and trailing `%` signs and parse as float, returning the original
value on failure; nulls and text values pass through. -/
def normalizeValue (v : Value) (dtype : Dtype) : Value :=
  match v with
  | Value.null => Value.null
  | v =>
    match dtype with
    | Dtype.numeric =>
      match parseFloatChars (rstripPercent (stripChars (pyStr v).data)) with
      | some q => Value.num q
      | none => v
    | Dtype.text => v

/-- `_compare_values` (comparator.py:177): null handling first, then the
dtype-specific comparison; the numeric path falls back to exact string
equality when a value does not parse as a float. -/
def compareValues (qes_val niq_val : Value) (dtype : Dtype) (tolerance : ℚ)
    (labels : Labels) : Bool × Diff :=
  if qes_val = Value.null ∧ niq_val = Value.null then (true, Diff.num 0)
  else if qes_val = Value.null ∨ niq_val = Value.null then
    (false, Diff.str labels.null_vs_value)
  else
    match dtype with
    | Dtype.numeric =>
      match toFloat? qes_val, toFloat? niq_val with
      | some q, some n =>
        let diff := pyRound (n - q) 6
        (decide (|diff| ≤ tolerance), Diff.num diff)
      | _, _ =>
        (pyStr qes_val == pyStr niq_val,
          Diff.str (pyStr qes_val ++ " vs " ++ pyStr niq_val))
    | Dtype.text =>
      let m := (pyStrip (pyStr qes_val)).toUpper == (pyStrip (pyStr niq_val)).toUpper
      (m, Diff.str (if m then "" else pyStr qes_val ++ " -> " ++ pyStr niq_val))

/-- `_compute_direction` (comparator.py:194): empty when either value is null
or unparseable or the dtype is not numeric; otherwise SAME within tolerance,
HIGHER when NIQ exceeds QES by more than the tolerance, LOWER otherwise. -/
def computeDirection (qes_val niq_val : Value) (dtype : Dtype) (tolerance : ℚ)
    (labels : Labels) : String :=
  if qes_val = Value.null ∨ niq_val = Value.null then ""
  else
    match dtype with
    | Dtype.numeric =>
      match toFloat? qes_val, toFloat? niq_val with
      | some q, some n =>
        let diff := n - q
        if |diff| ≤ tolerance then labels.same
        else if 0 < diff then labels.higher
        else labels.lower
      | _, _ => ""
    | Dtype.text => ""

/-- The composite join key built at comparator.py:26: each key component is
normalized and the tokens are joined with the `"|"` separator. -/
def joinKeyRow (vals : List Value) : String :=
  String.intercalate "|" (vals.map normalizeKeyPart)

/-- Lexicographic comparison of character lists by code point (how Python
compares strings; a proper prefix is smaller). -/
def charListLe : List Char → List Char → Bool
  | [], _ => true
  | _ :: _, [] => false
  | a :: as, b :: bs =>
    if a.toNat < b.toNat then true
    else if b.toNat < a.toNat then false
    else charListLe as bs

/-- Python string `<=` (code-point lexicographic). -/
def strLeB (a b : String) : Bool := charListLe a.data b.data

/-- Strict lexicographic comparison of character lists by code point. -/
def charListLt : List Char → List Char → Bool
  | [], [] => false
  | [], _ :: _ => true
  | _ :: _, [] => false
  | a :: as, b :: bs =>
    if a.toNat < b.toNat then true
    else if b.toNat < a.toNat then false
    else charListLt as bs

/-- Strict lexicographic order on token tuples (position-wise comparison, a
proper prefix is smaller) — the order the spec names for JoinKey tuples. -/
def tupleLt : List String → List String → Bool
  | [], [] => false
  | [], _ :: _ => true
  | _ :: _, [] => false
  | a :: as, b :: bs =>
    if charListLt a.data b.data then true
    else if a = b then tupleLt as bs
    else false

/-- Insert into a sorted list (used to model Python `sorted`). -/
def insertSorted (x : String) : List String → List String
  | [] => [x]
  | y :: ys => if strLeB x y then x :: y :: ys else y :: insertSorted x ys

/-- Insertion sort by code-point order (models Python `sorted` on strings). -/
def sortStrings : List String → List String
  | [] => []
  | x :: xs => insertSorted x (sortStrings xs)

/-- Python `sorted(set(ks))`: the distinct elements in ascending order. -/
def sortedUnique (ks : List String) : List String := sortStrings ks.dedup

/-- The join keys of one side: one composite key per record, where a record is
given by the list of its key-column values (comparator.py:26-27). -/
def sideKeys (records : List (List Value)) : List String :=
  records.map joinKeyRow

/-- `sorted(both_keys)` (comparator.py:41): iteration order of the Both
partition. -/
def bothKeysSorted (qes niq : List (List Value)) : List String :=
  sortedUnique ((sideKeys qes).filter fun k => decide (k ∈ sideKeys niq))

/-- `sorted(qes_only_keys)` (comparator.py:94): iteration order of the
QES-only partition. -/
def qesOnlyKeysSorted (qes niq : List (List Value)) : List String :=
  sortedUnique ((sideKeys qes).filter fun k => decide (k ∉ sideKeys niq))

/-- `sorted(niq_only_keys)` (comparator.py:123): iteration order of the
NIQ-only partition. -/
def niqOnlyKeysSorted (qes niq : List (List Value)) : List String :=
  sortedUnique ((sideKeys niq).filter fun k => decide (k ∉ sideKeys qes))

/-- Expansion of one `result_column_order` token (comparator.py:222-242):
`\x7bkeys\x7d`, `\x7brow_source\x7d`, `\x7boverall_match\x7d`,
`\x7bcompare:LBL\x7d`, `\x7badditional:LBL\x7d`, or a literal column name. -/
def expandToken (cols keyQes : List String) (token : String) : List String :=
  let t := pyStrip token
  if t = "\x7bkeys\x7d" then keyQes
  else if t = "\x7brow_source\x7d" then ["Row_Source"]
  else if t = "\x7boverall_match\x7d" then ["Overall_Match"]
  else if "\x7bcompare:".data.isPrefixOf t.data && "\x7d".data.isSuffixOf t.data then
    let lbl : String := ⟨(t.data.drop 9).dropLast⟩
    let base := ["QES_" ++ lbl, "NIQ_" ++ lbl, "Diff_" ++ lbl, "Match_" ++ lbl]
    if decide (("Direction_" ++ lbl) ∈ cols) then base ++ ["Direction_" ++ lbl]
    else base
  else if "\x7badditional:".data.isPrefixOf t.data && "\x7d".data.isSuffixOf t.data then
    let lbl : String := ⟨(t.data.drop 12).dropLast⟩
    ["QES_" ++ lbl, "NIQ_" ++ lbl]
  else [t]

/-- The candidate column list: template tokens expanded in order
(comparator.py:221-242). -/
def expandedCandidates (cols keyQes orderCfg : List String) : List String :=
  orderCfg.flatMap (expandToken cols keyQes)

/-- `_apply_column_order` (comparator.py:213) acting on the column sequence:
keep candidates that exist, then append the unreferenced columns in assembly
order; an empty template leaves the frame unchanged. -/
def applyColumnOrder (cols orderCfg keyQes : List String) : List String :=
  if orderCfg.isEmpty then cols
  else
    let ordered := (expandedCandidates cols keyQes orderCfg).filter
      fun c => decide (c ∈ cols)
    let remaining := cols.filter fun c => decide (c ∉ ordered)
    ordered ++ remaining

/-- A `compare_columns` entry as `_validate` sees it: the `qes_col`/`niq_col`
keys may be absent (modelled by `Option`), `label` is the output identity. -/
structure CompareColumnSpec where
  qes_col : Option String
  niq_col : Option String
  label : String
deriving DecidableEq

/-- An `additional_result_columns` entry after normalization. -/
structure AdditionalColumnSpec where
  qes_col : Option String
  niq_col : Option String
  label : String
deriving DecidableEq

/-- The parts of the configuration dictionary that `_validate`
(config_loader.py:66) inspects.  The `has_*` flags model `k in cfg`
membership of the required top-level keys. -/
structure ConfigModel where
  has_state : Bool
  has_qes : Bool
  has_niq : Bool
  has_key_columns : Bool
  has_compare_columns : Bool
  has_output : Bool
  key_qes : List String
  key_niq : List String
  compare_columns : List CompareColumnSpec
  additional_result_columns : List AdditionalColumnSpec
  niq_source_type : String
  qes_source_type : Option String
  chunked_enabled : Bool
  chunk_size : ℕ
deriving DecidableEq

/-- `_validate` (config_loader.py:66-85) as a predicate: `true` iff no assert
fires.  An empty `qes.source_type` is falsy in Python, skipping that check. -/
def validateConfig (c : ConfigModel) : Bool :=
  c.has_state && c.has_qes && c.has_niq && c.has_key_columns &&
  c.has_compare_columns && c.has_output &&
  (c.key_qes.length == c.key_niq.length) &&
  c.compare_columns.all (fun cc => cc.qes_col.isSome && cc.niq_col.isSome) &&
  (c.niq_source_type == "rds" || c.niq_source_type == "mock" ||
    c.niq_source_type == "csv" || c.niq_source_type == "excel") &&
  (match c.qes_source_type with
   | none => true
   | some t => t == "" || t == "excel" || t == "csv") &&
  (!c.chunked_enabled || decide (0 < c.chunk_size))

/-- All labels across `compare_columns` and `additional_result_columns`; the
spec requires them to be unique. -/
def allLabels (c : ConfigModel) : List String :=
  c.compare_columns.map CompareColumnSpec.label ++
    c.additional_result_columns.map AdditionalColumnSpec.label

/-- A fully-populated configuration whose two compare columns share the label
`"X"` while passing every check `_validate` performs. -/
def dupLabelConfig : ConfigModel :=
  { has_state := true, has_qes := true, has_niq := true, has_key_columns := true,
    has_compare_columns := true, has_output := true,
    key_qes := ["County"], key_niq := ["county_name"],
    compare_columns :=
      [⟨some "A", some "B", "X"⟩, ⟨some "C", some "D", "X"⟩],
    additional_result_columns := [],
    niq_source_type := "mock", qes_source_type := none,
    chunked_enabled := false, chunk_size := 0 }

/-! ## Properties of whitespace stripping -/

/-- The head surviving `dropWhile` fails the predicate. -/
theorem dropWhile_head_false {α : Type} {p : α → Bool} {l : List α} {x : α}
    {xs : List α} (h : l.dropWhile p = x :: xs) : p x = false := by
  have h1 : l.dropWhile p ≠ [] := by simp [h]
  have h2 := List.head_dropWhile_not p l h1
  have h3 : (l.dropWhile p).head h1 = x := by
    simp only [h, List.head_cons]
  rwa [h3] at h2

/-- `dropWhile` leaves a list with an all-failing predicate unchanged. -/
theorem dropWhile_eq_self_of_all {α : Type} {p : α → Bool} :
    ∀ {l : List α}, (∀ c ∈ l, p c = false) → l.dropWhile p = l
  | [], _ => rfl
  | x :: xs, h => by
    rw [List.dropWhile_cons, if_neg]
    simp [h x (by simp)]

/-- `dropWhile` empties a list whose elements all satisfy the predicate. -/
theorem dropWhile_eq_nil_of_all {α : Type} {p : α → Bool} :
    ∀ {l : List α}, (∀ c ∈ l, p c = true) → l.dropWhile p = []
  | [], _ => rfl
  | x :: xs, h => by
    rw [List.dropWhile_cons, if_pos (by simp [h x (by simp)])]
    exact dropWhile_eq_nil_of_all fun c hc => h c (by simp [hc])

/-- `takeWhile` keeps a list whose elements all satisfy the predicate. -/
theorem takeWhile_eq_self_of_all {α : Type} {p : α → Bool} :
    ∀ {l : List α}, (∀ c ∈ l, p c = true) → l.takeWhile p = l
  | [], _ => rfl
  | x :: xs, h => by
    rw [List.takeWhile_cons, if_pos (by simp [h x (by simp)])]
    rw [takeWhile_eq_self_of_all fun c hc => h c (by simp [hc])]

/-- After a left strip, a right strip leaves no strippable head behind. -/
theorem dropWhile_rdropWhile_dropWhile (p : Char → Bool) (l : List Char) :
    List.dropWhile p (List.rdropWhile p (List.dropWhile p l)) =
      List.rdropWhile p (List.dropWhile p l) := by
  cases hr : List.rdropWhile p (List.dropWhile p l) with
  | nil => rfl
  | cons x xs =>
    have hpre := List.rdropWhile_prefix p (List.dropWhile p l)
    rw [hr] at hpre
    obtain ⟨t', ht⟩ := hpre
    have hx : p x = false := dropWhile_head_false ht.symm
    rw [List.dropWhile_cons, if_neg]
    simp [hx]

/-- Stripping is idempotent (so Python `strip` applied twice is once). -/
theorem stripChars_idem (l : List Char) : stripChars (stripChars l) = stripChars l := by
  unfold stripChars
  rw [dropWhile_rdropWhile_dropWhile, List.rdropWhile_idempotent]

/-- A list with no whitespace is left unchanged by `stripChars`. -/
theorem stripChars_eq_self {l : List Char} (h : ∀ c ∈ l, isWS c = false) :
    stripChars l = l := by
  unfold stripChars
  rw [dropWhile_eq_self_of_all h]
  rw [List.rdropWhile, dropWhile_eq_self_of_all fun c hc => h c (by simpa using hc)]
  exact List.reverse_reverse l

/-! ## Decimal digits: printing and reading back -/

/-- The code point of a digit character. -/
theorem digitChar_toNat {d : ℕ} (h : d < 10) : (digitChar d).toNat = 48 + d := by
  interval_cases d <;> decide

/-- `digitChar` produces decimal digits. -/
theorem digitChar_isDigit {d : ℕ} (h : d < 10) : isDigitC (digitChar d) = true := by
  interval_cases d <;> decide

/-- Reading one more trailing digit multiplies the accumulator by ten. -/
theorem digitsVal_append (l : List Char) (c : Char) :
    digitsVal (l ++ [c]) = 10 * digitsVal l + (c.toNat - 48) := by
  unfold digitsVal
  rw [List.foldl_append]
  rfl

/-- With adequate fuel, `digAux` prints a non-empty all-digit list whose
read-back value is the printed number. -/
theorem digAux_spec : ∀ (fuel n : ℕ), n < fuel →
    digAux fuel n ≠ [] ∧ (∀ c ∈ digAux fuel n, isDigitC c = true) ∧
      digitsVal (digAux fuel n) = n := by
  intro fuel
  induction fuel with
  | zero => intro n h; omega
  | succ f ih =>
    intro n h
    by_cases h10 : n < 10
    · simp only [digAux, if_pos h10]
      refine ⟨by simp, ?_, ?_⟩
      · intro c hc
        simp only [List.mem_singleton] at hc
        subst hc
        exact digitChar_isDigit h10
      · simp only [digitsVal, List.foldl_cons, List.foldl_nil]
        rw [digitChar_toNat h10]
        omega
    · simp only [digAux, if_neg h10]
      have hlt : n / 10 < n := Nat.div_lt_self (by omega) (by norm_num)
      have hn : n / 10 < f := by omega
      obtain ⟨hne, hdig, hval⟩ := ih (n / 10) hn
      have hm : n % 10 < 10 := Nat.mod_lt _ (by norm_num)
      refine ⟨by simp, ?_, ?_⟩
      · intro c hc
        rcases List.mem_append.1 hc with hc | hc
        · exact hdig c hc
        · simp only [List.mem_singleton] at hc
          subst hc
          exact digitChar_isDigit hm
      · rw [digitsVal_append, hval, digitChar_toNat hm]
        omega

/-- `natToChars` is non-empty. -/
theorem natToChars_ne_nil (n : ℕ) : natToChars n ≠ [] :=
  (digAux_spec (n + 1) n (by omega)).1

/-- `natToChars` produces only digits. -/
theorem natToChars_all_digits (n : ℕ) : ∀ c ∈ natToChars n, isDigitC c = true :=
  (digAux_spec (n + 1) n (by omega)).2.1

/-- Reading back the decimal print of a natural recovers it. -/
theorem digitsVal_natToChars (n : ℕ) : digitsVal (natToChars n) = n :=
  (digAux_spec (n + 1) n (by omega)).2.2

/-! ## Parse/print round trip -/

/-- A digit is not whitespace. -/
theorem isWS_false_of_digit {c : Char} (h : isDigitC c = true) : isWS c = false := by
  have hb : 48 ≤ c.toNat ∧ c.toNat ≤ 57 := by simpa [isDigitC] using h
  simp only [isWS, decide_eq_false_iff_not]
  omega

/-- A digit is not an exponent marker. -/
theorem isExpC_false_of_digit {c : Char} (h : isDigitC c = true) : isExpC c = false := by
  have hb : 48 ≤ c.toNat ∧ c.toNat ≤ 57 := by simpa [isDigitC] using h
  simp only [isExpC, decide_eq_false_iff_not]
  omega

/-- A digit is not a decimal point. -/
theorem isDotC_false_of_digit {c : Char} (h : isDigitC c = true) : isDotC c = false := by
  have hb : 48 ≤ c.toNat ∧ c.toNat ≤ 57 := by simpa [isDigitC] using h
  simp only [isDotC, decide_eq_false_iff_not]
  omega

/-- When no character matches, `splitAt1` returns the whole list unsplit. -/
theorem splitAt1_of_all_false {p : Char → Bool} {l : List Char}
    (h : ∀ c ∈ l, p c = false) : splitAt1 p l = (l, none) := by
  unfold splitAt1
  rw [dropWhile_eq_nil_of_all (by intro c hc; simp [h c hc])]
  rw [takeWhile_eq_self_of_all (by intro c hc; simp [h c hc])]

/-- A leading digit is not consumed as a sign. -/
theorem parseSign_of_digit {c : Char} {rest : List Char} (h : isDigitC c = true) :
    parseSign (c :: rest) = (false, c :: rest) := by
  have hb : 48 ≤ c.toNat ∧ c.toNat ≤ 57 := by simpa [isDigitC] using h
  simp only [parseSign]
  rw [if_neg (by omega), if_neg (by omega)]

/-- Reading the decimal digits of `m` back recovers `m`. -/
theorem parseUDigits_natToChars (m : ℕ) : parseUDigits (natToChars m) = some m := by
  unfold parseUDigits
  rw [if_neg (by simpa [List.isEmpty_iff] using natToChars_ne_nil m)]
  rw [if_pos (List.all_eq_true.2 fun c hc => natToChars_all_digits m c hc)]
  rw [digitsVal_natToChars]

/-- The mantissa parser reads the print of a natural back as that natural. -/
theorem parseDec_natToChars (m : ℕ) : parseDec (natToChars m) = some (m : ℚ) := by
  obtain ⟨c, rest, hl⟩ := List.exists_cons_of_ne_nil (natToChars_ne_nil m)
  have hc : isDigitC c = true := natToChars_all_digits m c (by rw [hl]; simp)
  have hsign : parseSign (natToChars m) = (false, natToChars m) := by
    rw [hl]; exact parseSign_of_digit hc
  have hsplit : splitAt1 isDotC (natToChars m) = (natToChars m, none) :=
    splitAt1_of_all_false fun d hd => isDotC_false_of_digit (natToChars_all_digits m d hd)
  simp only [parseDec, hsign, hsplit, parseUDigits_natToChars, Option.map_some]
  rfl

/-- The mantissa parser reads a minus sign followed by digits as a negative. -/
theorem parseDec_neg_natToChars (m : ℕ) :
    parseDec (Char.ofNat 45 :: natToChars m) = some (-(m : ℚ)) := by
  have hsign : parseSign (Char.ofNat 45 :: natToChars m) = (true, natToChars m) := by
    simp only [parseSign]
    rw [if_pos (by decide)]
  have hsplit : splitAt1 isDotC (natToChars m) = (natToChars m, none) :=
    splitAt1_of_all_false fun d hd => isDotC_false_of_digit (natToChars_all_digits m d hd)
  simp only [parseDec, hsign, hsplit, parseUDigits_natToChars, Option.map_some]
  rfl

/-- No character of an integer's decimal print is whitespace. -/
theorem intToChars_not_ws (i : ℤ) : ∀ c ∈ intToChars i, isWS c = false := by
  intro c hc
  unfold intToChars at hc
  split at hc
  · rcases List.mem_cons.1 hc with hc | hc
    · subst hc; decide
    · exact isWS_false_of_digit (natToChars_all_digits _ c hc)
  · exact isWS_false_of_digit (natToChars_all_digits _ c hc)

/-- No character of an integer's decimal print is an exponent marker. -/
theorem intToChars_not_exp (i : ℤ) : ∀ c ∈ intToChars i, isExpC c = false := by
  intro c hc
  unfold intToChars at hc
  split at hc
  · rcases List.mem_cons.1 hc with hc | hc
    · subst hc; decide
    · exact isExpC_false_of_digit (natToChars_all_digits _ c hc)
  · exact isExpC_false_of_digit (natToChars_all_digits _ c hc)

/-- `float(str(i))` recovers the integer `i` exactly. -/
theorem parseFloatChars_intToChars (i : ℤ) :
    parseFloatChars (intToChars i) = some (i : ℚ) := by
  have hstrip : stripChars (intToChars i) = intToChars i :=
    stripChars_eq_self (intToChars_not_ws i)
  have hsplit : splitAt1 isExpC (intToChars i) = (intToChars i, none) :=
    splitAt1_of_all_false (intToChars_not_exp i)
  simp only [parseFloatChars, hstrip, hsplit]
  by_cases hi : i < 0
  · rw [show intToChars i = Char.ofNat 45 :: natToChars i.natAbs by
      unfold intToChars; rw [if_pos hi]]
    rw [parseDec_neg_natToChars]
    congr 1
    rw [Int.cast_natAbs, abs_of_neg hi]
    push_cast
    ring
  · rw [show intToChars i = natToChars i.natAbs by unfold intToChars; rw [if_neg hi]]
    rw [parseDec_natToChars]
    congr 1
    rw [Int.cast_natAbs]
    exact_mod_cast abs_of_nonneg (not_lt.1 hi)

/-- `float(str(i))` on strings. -/
theorem parseFloat_intToStr (i : ℤ) : parseFloat (intToStr i) = some (i : ℚ) :=
  parseFloatChars_intToChars i

/-- `ratFloor` agrees with the mathematical floor. -/
theorem ratFloor_eq_floor (q : ℚ) : ratFloor q = ⌊q⌋ := Rat.floor_def.symm

/-- `int()` of an integer-valued float is that integer. -/
theorem pyInt_intCast (i : ℤ) : pyInt ((i : ℤ) : ℚ) = i := by
  unfold pyInt
  simp only [ratFloor_eq_floor]
  split_ifs with h
  · rw [show (-((i : ℤ) : ℚ)) = (((-i : ℤ)) : ℚ) by push_cast; ring, Int.floor_intCast]
    ring
  · rw [Int.floor_intCast]

/-! ## Key normalization -/

/-- When the stripped string parses as a float, the key token is the decimal
print of its truncation (`str(int(float(s)))`). -/
theorem normalizeKeyPart_parse (v : Value) (q : ℚ)
    (h : parseFloat (pyStrip (pyStr v)) = some q) :
    normalizeKeyPart v = intToStr (pyInt q) := by
  simp only [normalizeKeyPart, h]

/-- When the stripped string does not parse, the key token is the stripped
string itself. -/
theorem normalizeKeyPart_noparse (v : Value)
    (h : parseFloat (pyStrip (pyStr v)) = none) :
    normalizeKeyPart v = pyStrip (pyStr v) := by
  simp only [normalizeKeyPart, h]

/-- An integer print contains no whitespace, so stripping leaves it alone. -/
theorem pyStrip_intToStr (i : ℤ) : pyStrip (intToStr i) = intToStr i := by
  unfold pyStrip intToStr
  rw [stripChars_eq_self (intToChars_not_ws i)]

/-- Normalizing a canonical integer token returns it unchanged. -/
theorem normalizeKeyPart_intToStr (i : ℤ) :
    normalizeKeyPart (Value.str (intToStr i)) = intToStr i := by
  have h : parseFloat (pyStrip (pyStr (Value.str (intToStr i)))) = some ((i : ℤ) : ℚ) := by
    show parseFloat (pyStrip (intToStr i)) = some ((i : ℤ) : ℚ)
    rw [pyStrip_intToStr, parseFloat_intToStr]
  rw [normalizeKeyPart_parse _ _ h, pyInt_intCast]

/-- Stripping a stripped string changes nothing. -/
theorem pyStrip_pyStrip (s : String) : pyStrip (pyStrip s) = pyStrip s := by
  unfold pyStrip
  rw [stripChars_idem]

/-- Characterization of `int()` on non-negative floats by floor bounds. -/
theorem pyInt_eq_of_nonneg (q : ℚ) (n : ℤ) (h0 : 0 ≤ q) (h1 : (n : ℚ) ≤ q)
    (h2 : q < n + 1) : pyInt q = n := by
  unfold pyInt
  rw [if_neg (not_lt.2 h0), ratFloor_eq_floor]
  exact Int.floor_eq_iff.2 ⟨h1, h2⟩

/-- Normalizing the number `11` (Python `str` prints it `"11.0"`) yields the
token `"11"`. -/
theorem normalizeKeyPart_num_eleven : normalizeKeyPart (Value.num 11) = "11" := by
  have h1 : parseFloat (pyStrip (pyStr (Value.num 11))) =
      some (((11 : ℕ) : ℚ) + ((0 : ℕ) : ℚ) / (10 : ℚ) ^ (1 : ℕ)) := rfl
  have h2 : (((11 : ℕ) : ℚ) + ((0 : ℕ) : ℚ) / (10 : ℚ) ^ (1 : ℕ)) = ((11 : ℤ) : ℚ) := by
    norm_num
  rw [normalizeKeyPart_parse _ _ (h2 ▸ h1), pyInt_intCast]
  decide

/-- C8: key normalization is idempotent — `normalize(normalize(x)) ==
normalize(x)` for every input value — and numeric-canonicalizing:
`"011"` and the numbers `11` / `11.0` (both `Value.num 11`, printed `"11.0"`
by Python `str`) all normalize to the token `"11"`. -/
theorem normalize_key_idempotent_canonical :
    (∀ v : Value, normalizeKeyPart (Value.str (normalizeKeyPart v)) = normalizeKeyPart v) ∧
    normalizeKeyPart (Value.str "011") = "11" ∧
    normalizeKeyPart (Value.num 11) = "11" := by
  refine ⟨?_, by decide, normalizeKeyPart_num_eleven⟩
  intro v
  cases hp : parseFloat (pyStrip (pyStr v)) with
  | some q =>
    rw [normalizeKeyPart_parse v q hp, normalizeKeyPart_intToStr]
  | none =>
    rw [normalizeKeyPart_noparse v hp]
    have h2 : parseFloat (pyStrip (pyStr (Value.str (pyStrip (pyStr v))))) = none := by
      show parseFloat (pyStrip (pyStrip (pyStr v))) = none
      rw [pyStrip_pyStrip]
      exact hp
    rw [normalizeKeyPart_noparse _ h2]
    show pyStrip (pyStrip (pyStr v)) = pyStrip (pyStr v)
    exact pyStrip_pyStrip _

/-- C10: key normalization truncates fractional values toward zero — whenever
the stripped component parses as a number `q`, the token is the decimal string
of `int(q)` — so `"11.5"`, `"11.4"`, the number `11`, and `"011"` all produce
the token `"11"`, and keys differing only in the fractional part collide. -/
theorem key_normalization_truncates :
    (∀ (s : String) (q : ℚ), parseFloat (pyStrip s) = some q →
        normalizeKeyPart (Value.str s) = intToStr (pyInt q)) ∧
    normalizeKeyPart (Value.str "11.5") = "11" ∧
    normalizeKeyPart (Value.str "11.4") = "11" ∧
    normalizeKeyPart (Value.num 11) = "11" ∧
    normalizeKeyPart (Value.str "011") = "11" ∧
    joinKeyRow [Value.str "11.5"] = joinKeyRow [Value.str "011"] := by
  have gen : ∀ (s : String) (q : ℚ), parseFloat (pyStrip s) = some q →
      normalizeKeyPart (Value.str s) = intToStr (pyInt q) :=
    fun s q h => normalizeKeyPart_parse (Value.str s) q h
  have h115 : normalizeKeyPart (Value.str "11.5") = "11" := by
    have h1 : parseFloat (pyStrip "11.5") =
        some (((11 : ℕ) : ℚ) + ((5 : ℕ) : ℚ) / (10 : ℚ) ^ (1 : ℕ)) := rfl
    rw [gen _ _ h1,
      pyInt_eq_of_nonneg _ 11 (by norm_num) (by norm_num) (by norm_num)]
    decide
  have h114 : normalizeKeyPart (Value.str "11.4") = "11" := by
    have h1 : parseFloat (pyStrip "11.4") =
        some (((11 : ℕ) : ℚ) + ((4 : ℕ) : ℚ) / (10 : ℚ) ^ (1 : ℕ)) := rfl
    rw [gen _ _ h1,
      pyInt_eq_of_nonneg _ 11 (by norm_num) (by norm_num) (by norm_num)]
    decide
  refine ⟨gen, h115, h114, normalizeKeyPart_num_eleven, by decide, ?_⟩
  show String.intercalate "|" [normalizeKeyPart (Value.str "11.5")] =
    String.intercalate "|" [normalizeKeyPart (Value.str "011")]
  rw [h115]
  decide

/-! ## Field comparison -/

/-- Rounding an integer-valued rational returns that integer. -/
theorem roundHalfEven_intCast (n : ℤ) : roundHalfEven ((n : ℤ) : ℚ) = n := by
  simp only [roundHalfEven, ratFloor_eq_floor, Int.floor_intCast, sub_self]
  rw [if_pos (by norm_num)]

/-- `round(x, 6)` when `x` is an exact multiple of `10⁻⁶`. -/
theorem pyRound_eq_int_div (x : ℚ) (n : ℤ) (h : x * (10 : ℚ) ^ (6 : ℕ) = ((n : ℤ) : ℚ)) :
    pyRound x 6 = ((n : ℤ) : ℚ) / (10 : ℚ) ^ (6 : ℕ) := by
  unfold pyRound
  rw [h, roundHalfEven_intCast]

/-- C2: for the numeric dtype, once both operands normalize to numbers the
comparison returns `diff = round(right - left, 6)` and matches iff
`|diff| ≤ tolerance`; in particular `compare(10.0, 10.005)` matches at
tolerance `0.01` and `compare(10.0, 10.05)` does not. -/
theorem numeric_compare_spec :
    (∀ (v w : Value) (a b tol : ℚ) (L : Labels), 0 ≤ tol →
        normalizeValue v Dtype.numeric = Value.num a →
        normalizeValue w Dtype.numeric = Value.num b →
        compareValues (normalizeValue v Dtype.numeric) (normalizeValue w Dtype.numeric)
            Dtype.numeric tol L =
          (decide (|pyRound (b - a) 6| ≤ tol), Diff.num (pyRound (b - a) 6))) ∧
    (compareValues (Value.num 10) (Value.num (2001 / 200)) Dtype.numeric (1 / 100)
        defaultLabels).1 = true ∧
    (compareValues (Value.num 10) (Value.num (201 / 20)) Dtype.numeric (1 / 100)
        defaultLabels).1 = false := by
  refine ⟨?_, ?_, ?_⟩
  · intro v w a b tol L htol hv hw
    rw [hv, hw]
    simp [compareValues, toFloat?]
  · have h1 : compareValues (Value.num 10) (Value.num (2001 / 200)) Dtype.numeric (1 / 100)
        defaultLabels =
        (decide (|pyRound ((2001 / 200 : ℚ) - 10) 6| ≤ (1 / 100 : ℚ)),
          Diff.num (pyRound ((2001 / 200 : ℚ) - 10) 6)) := by
      simp [compareValues, toFloat?]
    rw [h1]
    show decide (|pyRound ((2001 / 200 : ℚ) - 10) 6| ≤ (1 / 100 : ℚ)) = true
    rw [decide_eq_true_eq]
    rw [pyRound_eq_int_div _ 5000 (by norm_num)]
    rw [abs_of_nonneg (by norm_num)]
    norm_num
  · have h1 : compareValues (Value.num 10) (Value.num (201 / 20)) Dtype.numeric (1 / 100)
        defaultLabels =
        (decide (|pyRound ((201 / 20 : ℚ) - 10) 6| ≤ (1 / 100 : ℚ)),
          Diff.num (pyRound ((201 / 20 : ℚ) - 10) 6)) := by
      simp [compareValues, toFloat?]
    rw [h1]
    show decide (|pyRound ((201 / 20 : ℚ) - 10) 6| ≤ (1 / 100 : ℚ)) = false
    rw [decide_eq_false_iff_not]
    rw [pyRound_eq_int_div _ 50000 (by norm_num)]
    rw [abs_of_nonneg (by norm_num)]
    norm_num

/-- C2 witness: integer-string inputs normalize to numbers and the comparison
takes the numeric path. -/
theorem numeric_compare_spec_witness :
    (0 : ℚ) ≤ 1 ∧
    normalizeValue (Value.str "10") Dtype.numeric = Value.num 10 ∧
    normalizeValue (Value.str "12") Dtype.numeric = Value.num 12 ∧
    compareValues (normalizeValue (Value.str "10") Dtype.numeric)
        (normalizeValue (Value.str "12") Dtype.numeric) Dtype.numeric 1 defaultLabels =
      (decide (|pyRound ((12 : ℚ) - 10) 6| ≤ (1 : ℚ)), Diff.num (pyRound ((12 : ℚ) - 10) 6)) :=
  ⟨zero_le_one, rfl, rfl,
    numeric_compare_spec.1 (Value.str "10") (Value.str "12") 10 12 1 defaultLabels
      zero_le_one rfl rfl⟩

/-- C3: for every dtype and tolerance the null checks run before any
dtype-specific logic: null/null matches with diff 0, and exactly-one-null
mismatches with the `null_vs_value` sentinel. -/
theorem null_handling_spec (dtype : Dtype) (tol : ℚ) (L : Labels) (v : Value)
    (hv : v ≠ Value.null) :
    compareValues Value.null Value.null dtype tol L = (true, Diff.num 0) ∧
    compareValues Value.null v dtype tol L = (false, Diff.str L.null_vs_value) ∧
    compareValues v Value.null dtype tol L = (false, Diff.str L.null_vs_value) := by
  refine ⟨?_, ?_, ?_⟩
  · simp [compareValues]
  · simp [compareValues, hv]
  · simp [compareValues, hv]

/-- C3 witness at a concrete non-null value, dtype and tolerance. -/
theorem null_handling_spec_witness :
    (Value.str "x" ≠ Value.null) ∧
    (compareValues Value.null Value.null Dtype.numeric 0 defaultLabels = (true, Diff.num 0) ∧
      compareValues Value.null (Value.str "x") Dtype.numeric 0 defaultLabels =
        (false, Diff.str defaultLabels.null_vs_value) ∧
      compareValues (Value.str "x") Value.null Dtype.numeric 0 defaultLabels =
        (false, Diff.str defaultLabels.null_vs_value)) :=
  ⟨by decide, null_handling_spec Dtype.numeric 0 defaultLabels (Value.str "x") (by decide)⟩

/-- C4 counterexample: both operands fail numeric parsing; they are equal up
to case (so case-insensitive equality would match), yet the fallback reports
a mismatch — the fallback is case-sensitive `str(left) == str(right)`. -/
theorem numeric_fallback_cex :
    (compareValues (Value.str "abc") (Value.str "ABC") Dtype.numeric 0 defaultLabels).1
      = false ∧
    (pyStr (Value.str "abc")).data.map Char.toUpper
      = (pyStr (Value.str "ABC")).data.map Char.toUpper ∧
    toFloat? (Value.str "abc") = none ∧ toFloat? (Value.str "ABC") = none := by decide

/-- C4 (amended): when either value fails numeric parsing the comparison
never raises and degrades to case-SENSITIVE exact string equality
(`str(left) == str(right)`) with a human-readable `left vs right` diff. -/
theorem numeric_fallback_spec (a b : Value) (tol : ℚ) (L : Labels)
    (ha : a ≠ Value.null) (hb : b ≠ Value.null)
    (h : toFloat? a = none ∨ toFloat? b = none) :
    compareValues a b Dtype.numeric tol L =
      ((pyStr a == pyStr b), Diff.str (pyStr a ++ " vs " ++ pyStr b)) := by
  rcases h with h | h
  · simp [compareValues, ha, hb, h]
  · cases hfa : toFloat? a with
    | none => simp [compareValues, ha, hb, hfa]
    | some q => simp [compareValues, ha, hb, hfa, h]

/-- C4 witness: a numeric left float against an unparseable right string. -/
theorem numeric_fallback_spec_witness :
    (Value.str "abc" ≠ Value.null) ∧ (Value.num 5 ≠ Value.null) ∧
    toFloat? (Value.str "abc") = none ∧
    compareValues (Value.str "abc") (Value.num 5) Dtype.numeric 0 defaultLabels =
      ((pyStr (Value.str "abc") == pyStr (Value.num 5)),
        Diff.str (pyStr (Value.str "abc") ++ " vs " ++ pyStr (Value.num 5))) :=
  ⟨by decide, by decide, by decide,
    numeric_fallback_spec (Value.str "abc") (Value.num 5) 0 defaultLabels
      (by decide) (by decide) (Or.inl (by decide))⟩

/-! ## Direction classification -/

/-- C5: for the numeric dtype with non-negative tolerance and both values
parseable, the direction is SAME iff `|right - left| ≤ tolerance`, HIGHER iff
`right - left > tolerance`, LOWER iff `right - left < -tolerance`; and the
direction is the empty string whenever either input is null or unparseable. -/
theorem direction_spec (a b : Value) (q n tol : ℚ) (L : Labels)
    (htol : 0 ≤ tol) (hq : toFloat? a = some q) (hn : toFloat? b = some n)
    (hd1 : L.same ≠ L.higher) (hd2 : L.same ≠ L.lower) (hd3 : L.higher ≠ L.lower) :
    (computeDirection a b Dtype.numeric tol L = L.same ↔ |n - q| ≤ tol) ∧
    (computeDirection a b Dtype.numeric tol L = L.higher ↔ tol < n - q) ∧
    (computeDirection a b Dtype.numeric tol L = L.lower ↔ n - q < -tol) ∧
    (∀ x y : Value,
        x = Value.null ∨ y = Value.null ∨ toFloat? x = none ∨ toFloat? y = none →
        computeDirection x y Dtype.numeric tol L = "") := by
  have ha : a ≠ Value.null := by rintro rfl; simp [toFloat?] at hq
  have hb : b ≠ Value.null := by rintro rfl; simp [toFloat?] at hn
  have hred : computeDirection a b Dtype.numeric tol L =
      (if |n - q| ≤ tol then L.same else if 0 < n - q then L.higher else L.lower) := by
    simp only [computeDirection, hq, hn]
    rw [if_neg (by simp [ha, hb])]
  refine ⟨?_, ?_, ?_, ?_⟩
  · rw [hred]
    by_cases h1 : |n - q| ≤ tol
    · rw [if_pos h1]
      simp [h1]
    · rw [if_neg h1]
      by_cases h2 : 0 < n - q
      · rw [if_pos h2]
        simp [Ne.symm hd1, h1]
      · rw [if_neg h2]
        simp [Ne.symm hd2, h1]
  · rw [hred]
    by_cases h1 : |n - q| ≤ tol
    · rw [if_pos h1]
      have hng : ¬ tol < n - q := not_lt.2 (le_trans (le_abs_self _) h1)
      simp [hd1, hng]
    · rw [if_neg h1]
      by_cases h2 : 0 < n - q
      · rw [if_pos h2]
        have hgt : tol < n - q := by
          rw [abs_of_pos h2] at h1
          exact not_le.1 h1
        simp [hgt]
      · rw [if_neg h2]
        have hng : ¬ tol < n - q := fun hc => h2 (lt_of_le_of_lt htol hc)
        simp [Ne.symm hd3, hng]
  · rw [hred]
    by_cases h1 : |n - q| ≤ tol
    · rw [if_pos h1]
      have hng : ¬ n - q < -tol := by
        have h3 : -tol ≤ n - q := le_trans (neg_le_neg h1) (neg_abs_le (n - q))
        exact not_lt.2 h3
      simp [hd2, hng]
    · rw [if_neg h1]
      by_cases h2 : 0 < n - q
      · rw [if_pos h2]
        have hng : ¬ n - q < -tol := by intro hc; linarith
        simp [hd3, hng]
      · rw [if_neg h2]
        have hlt : n - q < -tol := by
          have habs : |n - q| = -(n - q) := abs_of_nonpos (not_lt.1 h2)
          rw [habs] at h1
          linarith [not_le.1 h1]
        simp [hlt]
  · intro x y hxy
    by_cases hx : x = Value.null
    · simp [computeDirection, hx]
    · by_cases hy : y = Value.null
      · simp [computeDirection, hy]
      · rcases hxy with h | h | h | h
        · exact absurd h hx
        · exact absurd h hy
        · simp [computeDirection, hx, hy, h]
        · cases hfx : toFloat? x with
          | none => simp [computeDirection, hx, hy, hfx]
          | some u => simp [computeDirection, hx, hy, hfx, h]

/-- C5 witness: direction of 3 vs 5 at tolerance 0 with the default labels. -/
theorem direction_spec_witness :
    (0 : ℚ) ≤ 0 ∧ toFloat? (Value.num 3) = some 3 ∧ toFloat? (Value.num 5) = some 5 ∧
    (defaultLabels.same ≠ defaultLabels.higher ∧
      defaultLabels.same ≠ defaultLabels.lower ∧
      defaultLabels.higher ≠ defaultLabels.lower) ∧
    (computeDirection (Value.num 3) (Value.num 5) Dtype.numeric 0 defaultLabels =
        defaultLabels.higher ↔ (0 : ℚ) < 5 - 3) :=
  ⟨le_refl 0, rfl, rfl, ⟨by decide, by decide, by decide⟩,
    (direction_spec (Value.num 3) (Value.num 5) 3 5 0 defaultLabels
      (le_refl 0) rfl rfl (by decide) (by decide) (by decide)).2.1⟩

/-! ## Join keys and partitioning -/

/-- C1: the `"|"` join-key separator collides.  The records with key tuples
`("a|b", "c")` and `("a", "b|c")` have different per-position normalized
tokens, yet the comparator gives both the composite key `"a|b|c"` — so it
joins them into the Both partition against the separator-safety requirement
(a non-numeric token passes through normalization and may contain `"|"`). -/
theorem joinkey_separator_collision :
    joinKeyRow [Value.str "a|b", Value.str "c"] =
      joinKeyRow [Value.str "a", Value.str "b|c"] ∧
    [Value.str "a|b", Value.str "c"].map normalizeKeyPart ≠
      [Value.str "a", Value.str "b|c"].map normalizeKeyPart ∧
    bothKeysSorted [[Value.str "a|b", Value.str "c"]] [[Value.str "a", Value.str "b|c"]] =
      ["a|b|c"] := by decide

/-- C9: `_validate` accepts a configuration in which two compare columns share
the label `"X"` — duplicate labels are not rejected up front, contradicting
the configuration-error contract. -/
theorem duplicate_labels_not_rejected :
    validateConfig dupLabelConfig = true ∧ ¬ (allLabels dupLabelConfig).Nodup := by decide

/-! ## Column ordering -/

/-- C6 counterexample: a template that names the column `"A"` twice makes the
resolver emit `"A"` twice, so the output is not a permutation of the
assembled columns. -/
theorem column_order_cex :
    applyColumnOrder ["A"] ["A", "A"] [] = ["A", "A"] ∧
    ¬ ((applyColumnOrder ["A"] ["A", "A"] []).Perm ["A"]) := by decide

/-- C6 (amended): provided the expanded template references no column twice
(and the assembled columns are distinct, as pandas column labels are), the
resolved column sequence is a permutation of the assembled one: unresolvable
tokens are dropped, nothing is lost, unreferenced columns are appended. -/
theorem column_order_perm (cols orderCfg keyQes : List String)
    (hcols : cols.Nodup) (hcand : (expandedCandidates cols keyQes orderCfg).Nodup) :
    (applyColumnOrder cols orderCfg keyQes).Perm cols := by
  unfold applyColumnOrder
  by_cases he : orderCfg.isEmpty
  · rw [if_pos he]
  · rw [if_neg he]
    have hord : ((expandedCandidates cols keyQes orderCfg).filter
        fun c => decide (c ∈ cols)).Nodup := hcand.filter _
    have hrem : (cols.filter fun c =>
        decide (c ∉ (expandedCandidates cols keyQes orderCfg).filter
          fun c => decide (c ∈ cols))).Nodup := hcols.filter _
    have hsub : ∀ x ∈ (expandedCandidates cols keyQes orderCfg).filter
        (fun c => decide (c ∈ cols)), x ∈ cols := by
      intro x hx
      have := List.mem_filter.1 hx
      simpa using this.2
    apply (List.perm_ext_iff_of_nodup ?_ hcols).2
    · intro x
      constructor
      · intro hx
        rcases List.mem_append.1 hx with hx | hx
        · exact hsub x hx
        · exact (List.mem_filter.1 hx).1
      · intro hx
        by_cases ho : x ∈ (expandedCandidates cols keyQes orderCfg).filter
            fun c => decide (c ∈ cols)
        · exact List.mem_append.2 (Or.inl ho)
        · exact List.mem_append.2 (Or.inr (List.mem_filter.2 ⟨hx, decide_eq_true ho⟩))
    · apply List.Nodup.append hord hrem
      intro x hxo hxr
      have hm := List.mem_filter.1 hxr
      exact absurd hxo (of_decide_eq_true hm.2)

/-- C6 witness: a one-token template over two assembled columns. -/
theorem column_order_perm_witness :
    (["A", "B"] : List String).Nodup ∧
    (expandedCandidates ["A", "B"] [] ["B"]).Nodup ∧
    (applyColumnOrder ["A", "B"] ["B"] []).Perm ["A", "B"] :=
  ⟨by decide, by decide, column_order_perm ["A", "B"] ["B"] [] (by decide) (by decide)⟩

/-! ## Deterministic iteration order of the partitions -/

/-- Code-point order on character lists is total. -/
theorem charListLe_total : ∀ (l1 l2 : List Char),
    charListLe l1 l2 = true ∨ charListLe l2 l1 = true
  | [], _ => Or.inl rfl
  | _ :: _, [] => Or.inr rfl
  | a :: as, b :: bs => by
    by_cases hab : a.toNat < b.toNat
    · left; simp only [charListLe]; rw [if_pos hab]
    · by_cases hba : b.toNat < a.toNat
      · right; simp only [charListLe]; rw [if_pos hba]
      · rcases charListLe_total as bs with h | h
        · left; simp only [charListLe]; rw [if_neg hab, if_neg hba]; exact h
        · right; simp only [charListLe]; rw [if_neg hba, if_neg hab]; exact h

/-- Code-point order on character lists is transitive. -/
theorem charListLe_trans : ∀ (l1 l2 l3 : List Char), charListLe l1 l2 = true →
    charListLe l2 l3 = true → charListLe l1 l3 = true
  | [], _, _, _, _ => rfl
  | _ :: _, [], _, h1, _ => by simp [charListLe] at h1
  | _ :: _, _ :: _, [], _, h2 => by simp [charListLe] at h2
  | a :: as, b :: bs, c :: cs, h1, h2 => by
    simp only [charListLe] at h1 h2 ⊢
    by_cases hab : a.toNat < b.toNat
    · by_cases hbc : b.toNat < c.toNat
      · rw [if_pos (by omega)]
      · by_cases hcb : c.toNat < b.toNat
        · rw [if_neg hbc, if_pos hcb] at h2
          exact absurd h2 (by simp)
        · rw [if_pos (by omega)]
    · by_cases hba : b.toNat < a.toNat
      · rw [if_neg hab, if_pos hba] at h1
        exact absurd h1 (by simp)
      · rw [if_neg hab, if_neg hba] at h1
        by_cases hbc : b.toNat < c.toNat
        · rw [if_pos (by omega)]
        · by_cases hcb : c.toNat < b.toNat
          · rw [if_neg hbc, if_pos hcb] at h2
            exact absurd h2 (by simp)
          · rw [if_neg hbc, if_neg hcb] at h2
            rw [if_neg (by omega), if_neg (by omega)]
            exact charListLe_trans as bs cs h1 h2

/-- Python string order is total. -/
theorem strLeB_total (a b : String) : strLeB a b = true ∨ strLeB b a = true :=
  charListLe_total a.data b.data

/-- Python string order is transitive. -/
theorem strLeB_trans {a b c : String} (h1 : strLeB a b = true)
    (h2 : strLeB b c = true) : strLeB a c = true :=
  charListLe_trans a.data b.data c.data h1 h2

/-- Membership after an ordered insertion. -/
theorem mem_insertSorted (x y : String) : ∀ (l : List String),
    y ∈ insertSorted x l ↔ y = x ∨ y ∈ l
  | [] => by simp [insertSorted]
  | z :: zs => by
    simp only [insertSorted]
    by_cases h : strLeB x z = true
    · rw [if_pos h]
      simp [List.mem_cons]
    · rw [if_neg h]
      simp only [List.mem_cons, mem_insertSorted x y zs]
      tauto

/-- Ordered insertion preserves sortedness. -/
theorem pairwise_insertSorted (x : String) : ∀ {l : List String},
    l.Pairwise (fun a b => strLeB a b = true) →
    (insertSorted x l).Pairwise (fun a b => strLeB a b = true) := by
  intro l
  induction l with
  | nil => intro _; simp [insertSorted]
  | cons y ys ih =>
    intro h
    obtain ⟨hy, hys⟩ := List.pairwise_cons.1 h
    simp only [insertSorted]
    by_cases hxy : strLeB x y = true
    · rw [if_pos hxy]
      rw [List.pairwise_cons]
      refine ⟨?_, h⟩
      intro z hz
      rcases List.mem_cons.1 hz with rfl | hz
      · exact hxy
      · exact strLeB_trans hxy (hy z hz)
    · rw [if_neg hxy]
      rw [List.pairwise_cons]
      refine ⟨?_, ih hys⟩
      intro z hz
      rcases (mem_insertSorted x z ys).1 hz with heq | hz
      · rw [heq]
        exact (strLeB_total x y).resolve_left hxy
      · exact hy z hz

/-- Insertion sort produces a list sorted by Python string order. -/
theorem sortStrings_pairwise : ∀ (l : List String),
    (sortStrings l).Pairwise (fun a b => strLeB a b = true)
  | [] => List.Pairwise.nil
  | x :: xs => by
    simp only [sortStrings]
    exact pairwise_insertSorted x (sortStrings_pairwise xs)

/-- C7 (amended): within each partition group the comparator emits rows in
ascending code-point order of the *joined* key string (Python `sorted` over
the `"|"`-joined keys) — a deterministic order, but the order of the joined
strings, not lexicographic order of the token tuples. -/
theorem partition_iteration_sorted (qes niq : List (List Value)) :
    (bothKeysSorted qes niq).Pairwise (fun a b => strLeB a b = true) ∧
    (qesOnlyKeysSorted qes niq).Pairwise (fun a b => strLeB a b = true) ∧
    (niqOnlyKeysSorted qes niq).Pairwise (fun a b => strLeB a b = true) :=
  ⟨sortStrings_pairwise _, sortStrings_pairwise _, sortStrings_pairwise _⟩

/-- C7 counterexample: with key tuples `("a", "z")` and `("ab", "a")` on both
sides, the tuple `("a", "z")` is lexicographically smaller, yet the comparator
emits `"ab|a"` first because `'b' < '|'` in the joined strings — so rows are
not ordered by tuple-lexicographic comparison. -/
theorem partition_iteration_cex :
    bothKeysSorted [[Value.str "a", Value.str "z"], [Value.str "ab", Value.str "a"]]
        [[Value.str "a", Value.str "z"], [Value.str "ab", Value.str "a"]] =
      ["ab|a", "a|z"] ∧
    joinKeyRow [Value.str "a", Value.str "z"] = "a|z" ∧
    joinKeyRow [Value.str "ab", Value.str "a"] = "ab|a" ∧
    tupleLt ([Value.str "a", Value.str "z"].map normalizeKeyPart)
        ([Value.str "ab", Value.str "a"].map normalizeKeyPart) = true := by decide

/-- C10 witness: the integer string `"11"` parses and normalizes through
`str(int(float))`. -/
theorem key_normalization_truncates_witness :
    parseFloat (pyStrip "11") = some ((11 : ℕ) : ℚ) ∧
    normalizeKeyPart (Value.str "11") = intToStr (pyInt ((11 : ℕ) : ℚ)) :=
  ⟨rfl, key_normalization_truncates.1 "11" ((11 : ℕ) : ℚ) rfl⟩
